import Mathlib

/-!
# Verification of `webpush.go` (daaku/webpush)

A shallow embedding of the Go package `webpush` (file `webpush.go`) in Lean 4.

Conventions of the embedding:
* Go byte slices and Go strings are both embedded as `List Nat`, each element a
  byte value (`< 256`).  ASCII string literals are produced with `ascii`.
* Go `int` is embedded as `Int`; conversions such as `uint32(x)` are explicit
  `% 2^32` arithmetic.
* The standard library's base64 codec (`encoding/base64`) is embedded
  concretely: the four `Encoding` values used by the code (`StdEncoding`,
  `RawStdEncoding`, `URLEncoding`, `RawURLEncoding`) and their `DecodeString`
  behaviour (invalid characters and invalid lengths are errors; `\r`/`\n` are
  skipped; padded decoders require a length that is a multiple of four with at
  most two trailing `=`).
* Cryptographic primitives and other effectful dependencies (the random salt,
  the freshly generated ephemeral P-256 key, ECDH, the HKDF-SHA-256 stream,
  AES-128-GCM sealing, `url.Parse`, JWT signing) are parameters of the
  embedding gathered in the `Env` structure, so that theorems quantify over
  their behaviour.
* Fallible operations return `Option`/`Except`.
-/

/-- Byte values of an ASCII string literal. -/
def ascii (s : String) : List Nat := s.data.map Char.toNat

/-! ## Base64 (embedding of the Go `encoding/base64` decoders used here)

`encCharStd`/`encCharURL` are the standard and URL-safe RFC 4648 alphabets;
`decCharStd`/`decCharURL` are their inverse character maps (as used by
`Encoding.DecodeString`). -/

/-- Character `i` (a sextet, `i < 64`) of the standard base64 alphabet
`A-Z a-z 0-9 + /`. -/
def encCharStd (i : Nat) : Nat :=
  if i < 26 then 65 + i
  else if i < 52 then 71 + i
  else if i < 62 then i - 4
  else if i = 62 then 43
  else 47

/-- Character `i` of the URL-safe base64 alphabet `A-Z a-z 0-9 - _`. -/
def encCharURL (i : Nat) : Nat :=
  if i < 62 then encCharStd i
  else if i = 62 then 45
  else 95

/-- Inverse character map of the standard alphabet. -/
def decCharStd (c : Nat) : Option Nat :=
  if 65 ≤ c ∧ c ≤ 90 then some (c - 65)
  else if 97 ≤ c ∧ c ≤ 122 then some (c - 71)
  else if 48 ≤ c ∧ c ≤ 57 then some (c + 4)
  else if c = 43 then some 62
  else if c = 47 then some 63
  else none

/-- Inverse character map of the URL-safe alphabet. -/
def decCharURL (c : Nat) : Option Nat :=
  if c = 45 then some 62
  else if c = 95 then some 63
  else if c = 43 ∨ c = 47 then none
  else decCharStd c

/-- The arithmetic alphabet agrees with the literal standard alphabet string. -/
theorem encCharStd_eq_table :
    (List.range 64).map encCharStd =
      ascii "ABCDEFGHIJKLMNOPQRSTUVWXYZabcdefghijklmnopqrstuvwxyz0123456789+/" := by
  decide

/-- The arithmetic alphabet agrees with the literal URL-safe alphabet string. -/
theorem encCharURL_eq_table :
    (List.range 64).map encCharURL =
      ascii "ABCDEFGHIJKLMNOPQRSTUVWXYZabcdefghijklmnopqrstuvwxyz0123456789-_" := by
  decide

/-- Encode bytes in groups of three into base64 characters (no padding),
using alphabet `enc`. -/
def encodeChunks (enc : Nat → Nat) : List Nat → List Nat
  | b0 :: b1 :: b2 :: rest =>
      enc (b0 / 4) :: enc (b0 % 4 * 16 + b1 / 16) :: enc (b1 % 16 * 4 + b2 / 64) ::
        enc (b2 % 64) :: encodeChunks enc rest
  | [b0, b1] => [enc (b0 / 4), enc (b0 % 4 * 16 + b1 / 16), enc (b1 % 16 * 4)]
  | [b0] => [enc (b0 / 4), enc (b0 % 4 * 16)]
  | [] => []

/-- Base64-encode `b` with alphabet `enc`; when `pad` is set, append `=`
characters up to a multiple of four. -/
def encodeB64 (enc : Nat → Nat) (pad : Bool) (b : List Nat) : List Nat :=
  encodeChunks enc b ++ (if pad then List.replicate ((3 - b.length % 3) % 3) 61 else [])

/-- `base64.StdEncoding.EncodeToString`. -/
def encodeStd (b : List Nat) : List Nat := encodeB64 encCharStd true b

/-- `base64.RawStdEncoding.EncodeToString`. -/
def encodeRawStd (b : List Nat) : List Nat := encodeB64 encCharStd false b

/-- `base64.URLEncoding.EncodeToString`. -/
def encodeURL (b : List Nat) : List Nat := encodeB64 encCharURL true b

/-- `base64.RawURLEncoding.EncodeToString`. -/
def encodeRawURL (b : List Nat) : List Nat := encodeB64 encCharURL false b

/-- Decode base64 characters in groups of four (last group may have two or
three characters) with inverse character map `dec`; any character outside the
alphabet, or a trailing group of one character, is an error. -/
def decodeChunks (dec : Nat → Option Nat) : List Nat → Option (List Nat)
  | [] => some []
  | [_] => none
  | [c0, c1] => do
      let s0 ← dec c0
      let s1 ← dec c1
      pure [s0 * 4 + s1 / 16]
  | [c0, c1, c2] => do
      let s0 ← dec c0
      let s1 ← dec c1
      let s2 ← dec c2
      pure [s0 * 4 + s1 / 16, s1 % 16 * 16 + s2 / 4]
  | c0 :: c1 :: c2 :: c3 :: rest => do
      let s0 ← dec c0
      let s1 ← dec c1
      let s2 ← dec c2
      let s3 ← dec c3
      let tail ← decodeChunks dec rest
      pure ((s0 * 4 + s1 / 16) :: (s1 % 16 * 16 + s2 / 4) :: (s2 % 4 * 64 + s3) :: tail)

/-- `encoding/base64` decoders skip CR and LF characters. -/
def stripNewlines (s : List Nat) : List Nat :=
  s.filter (fun c => !(c == 13 || c == 10))

/-- Remove the trailing run of `=` characters. -/
def removeTrailingEq (s : List Nat) : List Nat :=
  (s.reverse.dropWhile (fun c => c == 61)).reverse

/-- Decoding with a padded encoding: the length must be a multiple of four,
with at most two trailing `=` characters. -/
def decodePadded (dec : Nat → Option Nat) (s : List Nat) : Option (List Nat) :=
  if s.length % 4 = 0 ∧ s.length ≤ (removeTrailingEq s).length + 2 then
    decodeChunks dec (removeTrailingEq s)
  else none

/-- The four base64 variants distinguished by `b64Encoding` in the source. -/
inductive B64Variant
  | stdPadded
  | stdRaw
  | urlPadded
  | urlRaw
deriving DecidableEq

/-- The scan loop of `b64Encoding` (webpush.go lines 86-95): walk the string
left to right; the first of `-`/`_` makes the string URL-variant, the first of
`+`/`/` makes it standard-variant. -/
def scanIsURL : List Nat → Bool
  | [] => false
  | c :: rest =>
      if c == 45 || c == 95 then true
      else if c == 43 || c == 47 then false
      else scanIsURL rest

/-- `hasPadding` of `b64Encoding` (webpush.go line 83): the string is nonempty
and its final character is `=`. -/
def lastIsEq (s : List Nat) : Bool := s.getLast? == some 61

/-- `b64Encoding` (webpush.go lines 82-108).  The four-way switch is embedded
as a chain of conditionals whose fall-through — the `panic` on line 107 — is
`none`. -/
def b64EncodingGo (s : List Nat) : Option B64Variant :=
  let isURL := scanIsURL s
  let pad := lastIsEq s
  if isURL && pad then some .urlPadded
  else if isURL && !pad then some .urlRaw
  else if !isURL && pad then some .stdPadded
  else if !isURL && !pad then some .stdRaw
  else none

/-- `DecodeString` of the decoder selected by `b64Encoding`. -/
def decodeWith : B64Variant → List Nat → Option (List Nat)
  | .stdPadded, s => decodePadded decCharStd (stripNewlines s)
  | .stdRaw, s => decodeChunks decCharStd (stripNewlines s)
  | .urlPadded, s => decodePadded decCharURL (stripNewlines s)
  | .urlRaw, s => decodeChunks decCharURL (stripNewlines s)

/-- `b64Decode` (webpush.go lines 111-113): decode with the detected variant;
the unreachable `panic` branch is an error. -/
def b64Decode (s : List Nat) : Option (List Nat) :=
  match b64EncodingGo s with
  | some v => decodeWith v s
  | none => none

/-! ### Character-level facts -/

/-- Decoding inverts encoding on every sextet, standard alphabet. -/
theorem decCharStd_encCharStd : ∀ i : Fin 64, decCharStd (encCharStd i) = some i := by
  decide

/-- Decoding inverts encoding on every sextet, URL-safe alphabet. -/
theorem decCharURL_encCharURL : ∀ i : Fin 64, decCharURL (encCharURL i) = some i := by
  decide

/-- Standard alphabet characters are never `=`, `-`, `_`, CR or LF. -/
theorem encCharStd_avoid : ∀ i : Fin 64,
    encCharStd i ≠ 61 ∧ encCharStd i ≠ 45 ∧ encCharStd i ≠ 95 ∧
    encCharStd i ≠ 13 ∧ encCharStd i ≠ 10 := by
  decide

/-- URL-safe alphabet characters are never `=`, `+`, `/`, CR or LF. -/
theorem encCharURL_avoid : ∀ i : Fin 64,
    encCharURL i ≠ 61 ∧ encCharURL i ≠ 43 ∧ encCharURL i ≠ 47 ∧
    encCharURL i ≠ 13 ∧ encCharURL i ≠ 10 := by
  decide

/-- Away from the four variant-distinguishing characters, the two inverse
character maps agree. -/
theorem decChar_agree (c : Nat) (h43 : c ≠ 43) (h45 : c ≠ 45) (h47 : c ≠ 47)
    (h95 : c ≠ 95) : decCharURL c = decCharStd c := by
  have : decCharStd c = if 65 ≤ c ∧ c ≤ 90 then some (c - 65)
      else if 97 ≤ c ∧ c ≤ 122 then some (c - 71)
      else if 48 ≤ c ∧ c ≤ 57 then some (c + 4)
      else if c = 43 then some 62
      else if c = 47 then some 63
      else none := rfl
  simp [decCharURL, decCharStd, h43, h45, h47, h95]

/-! ### Chunk-level facts -/

/-- Every character emitted by `encodeChunks` is an alphabet character. -/
theorem encodeChunks_forall (enc : Nat → Nat) (P : Nat → Prop)
    (hP : ∀ i, i < 64 → P (enc i)) :
    ∀ b : List Nat, (∀ x ∈ b, x < 256) → ∀ c ∈ encodeChunks enc b, P c
  | [], _, c, hc => by simp [encodeChunks] at hc
  | [b0], hb, c, hc => by
      have h0 : b0 < 256 := hb _ (by simp)
      simp only [encodeChunks, List.mem_cons, List.not_mem_nil, or_false] at hc
      rcases hc with h | h <;> subst h <;> exact hP _ (by omega)
  | [b0, b1], hb, c, hc => by
      have h0 : b0 < 256 := hb _ (by simp)
      have h1 : b1 < 256 := hb _ (by simp)
      simp only [encodeChunks, List.mem_cons, List.not_mem_nil, or_false] at hc
      rcases hc with h | h | h <;> subst h <;> exact hP _ (by omega)
  | b0 :: b1 :: b2 :: rest, hb, c, hc => by
      have h0 : b0 < 256 := hb _ (by simp)
      have h1 : b1 < 256 := hb _ (by simp)
      have h2 : b2 < 256 := hb _ (by simp)
      simp only [encodeChunks, List.mem_cons] at hc
      rcases hc with h | h | h | h | h
      · subst h; exact hP _ (by omega)
      · subst h; exact hP _ (by omega)
      · subst h; exact hP _ (by omega)
      · subst h; exact hP _ (by omega)
      · exact encodeChunks_forall enc P hP rest
          (fun x hx => hb x (by simp [hx])) c h

/-- Decoding inverts encoding chunk by chunk. -/
theorem decodeChunks_encodeChunks (enc : Nat → Nat) (dec : Nat → Option Nat)
    (hdec : ∀ i, i < 64 → dec (enc i) = some i) :
    ∀ b : List Nat, (∀ x ∈ b, x < 256) →
      decodeChunks dec (encodeChunks enc b) = some b
  | [], _ => rfl
  | [b0], hb => by
      have h0 : b0 < 256 := hb _ (by simp)
      simp [encodeChunks, decodeChunks, hdec _ (show b0 / 4 < 64 by omega),
        hdec _ (show b0 % 4 * 16 < 64 by omega)]
      omega
  | [b0, b1], hb => by
      have h0 : b0 < 256 := hb _ (by simp)
      have h1 : b1 < 256 := hb _ (by simp)
      simp [encodeChunks, decodeChunks, hdec _ (show b0 / 4 < 64 by omega),
        hdec _ (show b0 % 4 * 16 + b1 / 16 < 64 by omega),
        hdec _ (show b1 % 16 * 4 < 64 by omega)]
      omega
  | b0 :: b1 :: b2 :: rest, hb => by
      have h0 : b0 < 256 := hb _ (by simp)
      have h1 : b1 < 256 := hb _ (by simp)
      have h2 : b2 < 256 := hb _ (by simp)
      have ih := decodeChunks_encodeChunks enc dec hdec rest
        (fun x hx => hb x (by simp [hx]))
      simp [encodeChunks, decodeChunks, hdec _ (show b0 / 4 < 64 by omega),
        hdec _ (show b0 % 4 * 16 + b1 / 16 < 64 by omega),
        hdec _ (show b1 % 16 * 4 + b2 / 64 < 64 by omega),
        hdec _ (show b2 % 64 < 64 by omega), ih]
      refine ⟨by omega, by omega, by omega⟩

/-- The chunk encoding plus its padding always has length a multiple of
four. -/
theorem encodeChunks_length_mod (enc : Nat → Nat) :
    ∀ b : List Nat, ((encodeChunks enc b).length + (3 - b.length % 3) % 3) % 4 = 0
  | [] => rfl
  | [_] => by simp [encodeChunks]
  | [_, _] => by simp [encodeChunks]
  | b0 :: b1 :: b2 :: rest => by
      have ih := encodeChunks_length_mod enc rest
      simp only [encodeChunks, List.length_cons] at ih ⊢
      omega

/-- Removing trailing `=` from a string `e ++ "="*k` where `e` is `=`-free
gives back `e`. -/
theorem removeTrailingEq_append (e : List Nat) (he : ∀ c ∈ e, c ≠ 61) (k : Nat) :
    removeTrailingEq (e ++ List.replicate k 61) = e := by
  have hrep : ∀ l : List Nat, ∀ k : Nat,
      (List.replicate k 61 ++ l).dropWhile (fun c => c == 61) =
        l.dropWhile (fun c => c == 61) := by
    intro l k
    induction k with
    | zero => rfl
    | succ n ih => simp [List.replicate_succ, List.dropWhile_cons, ih]
  have hstay : e.reverse.dropWhile (fun c => c == 61) = e.reverse := by
    cases h : e.reverse with
    | nil => rfl
    | cons c t =>
        have hc : c ∈ e := by
          have hmem : c ∈ e.reverse := by rw [h]; exact List.mem_cons_self c t
          simpa [List.mem_reverse] using hmem
        have hcne : (c == 61) = false := by simpa using he c hc
        simp [List.dropWhile_cons, hcne]
  unfold removeTrailingEq
  rw [List.reverse_append, List.reverse_replicate, hrep, hstay, List.reverse_reverse]

/-- Filtering CR/LF out of a CR/LF-free string is the identity. -/
theorem stripNewlines_eq (s : List Nat) (h : ∀ c ∈ s, c ≠ 13 ∧ c ≠ 10) :
    stripNewlines s = s := by
  unfold stripNewlines
  apply List.filter_eq_self.mpr
  intro a ha
  have hh := h a ha
  simp [hh.1, hh.2]

/-- A string without `-`/`_` never scans as URL-variant. -/
theorem scanIsURL_eq_false (s : List Nat) (h : ∀ c ∈ s, c ≠ 45 ∧ c ≠ 95) :
    scanIsURL s = false := by
  induction s with
  | nil => rfl
  | cons c t ih =>
      have hc := h c (List.mem_cons_self c t)
      have h45 : (c == 45) = false := by simpa using hc.1
      have h95 : (c == 95) = false := by simpa using hc.2
      have ht := ih (fun x hx => h x (List.mem_cons_of_mem _ hx))
      simp [scanIsURL, h45, h95, ht]

/-- If the scan did not detect the URL variant and the string has no `+`/`/`
either, then the string has no `-`/`_` at all. -/
theorem no_url_chars_of_scan_false (s : List Nat)
    (hstd : ∀ c ∈ s, c ≠ 43 ∧ c ≠ 47) (hscan : scanIsURL s = false) :
    ∀ c ∈ s, c ≠ 45 ∧ c ≠ 95 := by
  induction s with
  | nil => simp
  | cons c t ih =>
      have hc := hstd c (List.mem_cons_self c t)
      have h43 : (c == 43) = false := by simpa using hc.1
      have h47 : (c == 47) = false := by simpa using hc.2
      rw [scanIsURL] at hscan
      by_cases h4595 : (c == 45 || c == 95) = true
      · rw [if_pos h4595] at hscan
        exact absurd hscan (by simp)
      · rw [if_neg h4595, h43, h47] at hscan
        simp only [Bool.or_self, if_false] at hscan
        have hct := ih (fun x hx => hstd x (List.mem_cons_of_mem _ hx)) hscan
        intro x hx
        rcases List.mem_cons.mp hx with h | h
        · subst h
          constructor
          · intro h45; rw [h45] at h4595; simp at h4595
          · intro h95; rw [h95] at h4595; simp at h4595
        · exact hct x h

/-- A string with at least one `=` of padding appended ends in `=`. -/
theorem lastIsEq_append_pad (e : List Nat) (n : Nat) :
    lastIsEq (e ++ List.replicate (n + 1) 61) = true := by
  unfold lastIsEq
  rw [List.replicate_succ', ← List.append_assoc, List.getLast?_concat]
  rfl

/-- An `=`-free string does not end in `=`. -/
theorem lastIsEq_eq_false (e : List Nat) (he : ∀ c ∈ e, c ≠ 61) :
    lastIsEq e = false := by
  unfold lastIsEq
  cases h : e.getLast? with
  | none => rfl
  | some c =>
      have hmem : c ∈ e.getLast? := by rw [h]; rfl
      obtain ⟨hne, hc⟩ := List.mem_getLast?_eq_getLast hmem
      have : c ∈ e := hc ▸ List.getLast_mem hne
      simp [he c this]

/-- Two inverse character maps that agree on every character of `s` decode `s`
identically. -/
theorem decodeChunks_congr (d1 d2 : Nat → Option Nat) :
    ∀ s : List Nat, (∀ c ∈ s, d1 c = d2 c) → decodeChunks d1 s = decodeChunks d2 s
  | [], _ => rfl
  | [_], _ => rfl
  | [c0, c1], h => by
      simp [decodeChunks, h c0 (by simp), h c1 (by simp)]
  | [c0, c1, c2], h => by
      simp [decodeChunks, h c0 (by simp), h c1 (by simp), h c2 (by simp)]
  | c0 :: c1 :: c2 :: c3 :: rest, h => by
      have ih := decodeChunks_congr d1 d2 rest (fun c hc => h c (by simp [hc]))
      simp [decodeChunks, h c0 (by simp), h c1 (by simp), h c2 (by simp),
        h c3 (by simp), ih]

/-- A padded decoder inverts the padded encoder. -/
theorem decodePadded_encodeB64 (enc : Nat → Nat) (dec : Nat → Option Nat)
    (hdec : ∀ i, i < 64 → dec (enc i) = some i)
    (hne : ∀ i, i < 64 → enc i ≠ 61)
    (b : List Nat) (hb : ∀ x ∈ b, x < 256) :
    decodePadded dec (encodeB64 enc true b) = some b := by
  have hch : ∀ c ∈ encodeChunks enc b, c ≠ 61 :=
    encodeChunks_forall enc (fun c => c ≠ 61) hne b hb
  have hlen := encodeChunks_length_mod enc b
  have hrm := removeTrailingEq_append (encodeChunks enc b) hch ((3 - b.length % 3) % 3)
  have hrt := decodeChunks_encodeChunks enc dec hdec b hb
  have hval : encodeB64 enc true b =
      encodeChunks enc b ++ List.replicate ((3 - b.length % 3) % 3) 61 := by
    simp [encodeB64]
  rw [hval]
  unfold decodePadded
  rw [hrm, if_pos]
  · exact hrt
  · constructor
    · simpa [List.length_append, List.length_replicate] using hlen
    · simp only [List.length_append, List.length_replicate]
      omega

/-- `b64Encoding` characterized by the two booleans it computes; in
particular it never reaches the `panic` fall-through. -/
theorem b64EncodingGo_eq (s : List Nat) :
    b64EncodingGo s = some (match scanIsURL s, lastIsEq s with
      | true, true => B64Variant.urlPadded
      | true, false => B64Variant.urlRaw
      | false, true => B64Variant.stdPadded
      | false, false => B64Variant.stdRaw) := by
  unfold b64EncodingGo
  cases scanIsURL s <;> cases lastIsEq s <;> rfl

/-- Membership in an encoding followed by padding. -/
theorem mem_pad_cases {P : Nat → Prop} (e : List Nat) (k : Nat)
    (he : ∀ c ∈ e, P c) (h61 : P 61) :
    ∀ c ∈ e ++ List.replicate k 61, P c := by
  intro c hc
  rcases List.mem_append.mp hc with h | h
  · exact he c h
  · rw [List.eq_of_mem_replicate h]; exact h61

/-- Padded decoding only looks at characters before the trailing `=`. -/
theorem decodePadded_congr (d1 d2 : Nat → Option Nat) (s : List Nat)
    (h : ∀ c ∈ removeTrailingEq s, d1 c = d2 c) :
    decodePadded d1 s = decodePadded d2 s := by
  unfold decodePadded
  split
  · exact decodeChunks_congr d1 d2 _ h
  · rfl

/-- Round trip through the flexible decoder, standard unpadded encoding. -/
theorem b64Decode_encodeRawStd (b : List Nat) (hb : ∀ x ∈ b, x < 256) :
    b64Decode (encodeRawStd b) = some b := by
  have hmem := encodeChunks_forall encCharStd
      (fun c => c ≠ 61 ∧ c ≠ 45 ∧ c ≠ 95 ∧ c ≠ 13 ∧ c ≠ 10)
      (fun i hi => encCharStd_avoid ⟨i, hi⟩) b hb
  have hE : encodeRawStd b = encodeChunks encCharStd b := by
    simp [encodeRawStd, encodeB64]
  rw [hE]
  have hscan : scanIsURL (encodeChunks encCharStd b) = false :=
    scanIsURL_eq_false _ (fun c hc => ⟨(hmem c hc).2.1, (hmem c hc).2.2.1⟩)
  have hlast : lastIsEq (encodeChunks encCharStd b) = false :=
    lastIsEq_eq_false _ (fun c hc => (hmem c hc).1)
  have hnl : stripNewlines (encodeChunks encCharStd b) = encodeChunks encCharStd b :=
    stripNewlines_eq _ (fun c hc => ⟨(hmem c hc).2.2.2.1, (hmem c hc).2.2.2.2⟩)
  have hv : b64EncodingGo (encodeChunks encCharStd b) = some B64Variant.stdRaw := by
    rw [b64EncodingGo_eq, hscan, hlast]
  simp only [b64Decode, hv, decodeWith, hnl]
  exact decodeChunks_encodeChunks _ _ (fun i hi => decCharStd_encCharStd ⟨i, hi⟩) b hb

/-- Round trip through the flexible decoder, standard padded encoding. -/
theorem b64Decode_encodeStd (b : List Nat) (hb : ∀ x ∈ b, x < 256) :
    b64Decode (encodeStd b) = some b := by
  have hmem := encodeChunks_forall encCharStd
      (fun c => c ≠ 61 ∧ c ≠ 45 ∧ c ≠ 95 ∧ c ≠ 13 ∧ c ≠ 10)
      (fun i hi => encCharStd_avoid ⟨i, hi⟩) b hb
  have hE : encodeStd b =
      encodeChunks encCharStd b ++ List.replicate ((3 - b.length % 3) % 3) 61 := by
    simp [encodeStd, encodeB64]
  cases hk : (3 - b.length % 3) % 3 with
  | zero =>
      have hE0 : encodeStd b = encodeChunks encCharStd b := by
        rw [hE, hk]; simp
      have hraw := b64Decode_encodeRawStd b hb
      rw [show encodeRawStd b = encodeChunks encCharStd b from by
        simp [encodeRawStd, encodeB64]] at hraw
      rw [hE0]; exact hraw
  | succ n =>
      rw [hE, hk]
      have hsmem : ∀ c ∈ encodeChunks encCharStd b ++ List.replicate (n + 1) 61,
          (c ≠ 45 ∧ c ≠ 95) ∧ c ≠ 13 ∧ c ≠ 10 :=
        mem_pad_cases _ _
          (fun c hc => ⟨⟨(hmem c hc).2.1, (hmem c hc).2.2.1⟩,
            (hmem c hc).2.2.2.1, (hmem c hc).2.2.2.2⟩)
          (by omega)
      have hscan : scanIsURL (encodeChunks encCharStd b ++ List.replicate (n + 1) 61)
          = false := scanIsURL_eq_false _ (fun c hc => (hsmem c hc).1)
      have hlast := lastIsEq_append_pad (encodeChunks encCharStd b) n
      have hnl := stripNewlines_eq (encodeChunks encCharStd b ++ List.replicate (n + 1) 61)
        (fun c hc => (hsmem c hc).2)
      have hv : b64EncodingGo (encodeChunks encCharStd b ++ List.replicate (n + 1) 61)
          = some B64Variant.stdPadded := by
        rw [b64EncodingGo_eq, hscan, hlast]
      simp only [b64Decode, hv, decodeWith, hnl]
      have hpad := decodePadded_encodeB64 encCharStd decCharStd
        (fun i hi => decCharStd_encCharStd ⟨i, hi⟩)
        (fun i hi => (encCharStd_avoid ⟨i, hi⟩).1) b hb
      rw [show encodeB64 encCharStd true b =
          encodeChunks encCharStd b ++ List.replicate (n + 1) 61 from by
        simp [encodeB64]; rw [hk]] at hpad
      exact hpad

/-- Round trip through the flexible decoder, URL-safe unpadded encoding.  The
scan may resolve to either variant (the encoding need not contain `-`/`_`);
both selected decoders recover the bytes. -/
theorem b64Decode_encodeRawURL (b : List Nat) (hb : ∀ x ∈ b, x < 256) :
    b64Decode (encodeRawURL b) = some b := by
  have hmem := encodeChunks_forall encCharURL
      (fun c => c ≠ 61 ∧ c ≠ 43 ∧ c ≠ 47 ∧ c ≠ 13 ∧ c ≠ 10)
      (fun i hi => encCharURL_avoid ⟨i, hi⟩) b hb
  have hE : encodeRawURL b = encodeChunks encCharURL b := by
    simp [encodeRawURL, encodeB64]
  rw [hE]
  have hlast : lastIsEq (encodeChunks encCharURL b) = false :=
    lastIsEq_eq_false _ (fun c hc => (hmem c hc).1)
  have hnl : stripNewlines (encodeChunks encCharURL b) = encodeChunks encCharURL b :=
    stripNewlines_eq _ (fun c hc => ⟨(hmem c hc).2.2.2.1, (hmem c hc).2.2.2.2⟩)
  have hrt : decodeChunks decCharURL (encodeChunks encCharURL b) = some b :=
    decodeChunks_encodeChunks _ _ (fun i hi => decCharURL_encCharURL ⟨i, hi⟩) b hb
  cases hscan : scanIsURL (encodeChunks encCharURL b) with
  | true =>
      have hv : b64EncodingGo (encodeChunks encCharURL b) = some B64Variant.urlRaw := by
        rw [b64EncodingGo_eq, hscan, hlast]
      simp only [b64Decode, hv, decodeWith, hnl]
      exact hrt
  | false =>
      have hnochar : ∀ c ∈ encodeChunks encCharURL b, c ≠ 45 ∧ c ≠ 95 :=
        no_url_chars_of_scan_false _
          (fun c hc => ⟨(hmem c hc).2.1, (hmem c hc).2.2.1⟩) hscan
      have hagree : ∀ c ∈ encodeChunks encCharURL b, decCharStd c = decCharURL c :=
        fun c hc => (decChar_agree c (hmem c hc).2.1 (hnochar c hc).1
          (hmem c hc).2.2.1 (hnochar c hc).2).symm
      have hv : b64EncodingGo (encodeChunks encCharURL b) = some B64Variant.stdRaw := by
        rw [b64EncodingGo_eq, hscan, hlast]
      simp only [b64Decode, hv, decodeWith, hnl]
      rw [decodeChunks_congr decCharStd decCharURL _ hagree]
      exact hrt

/-- Round trip through the flexible decoder, URL-safe padded encoding. -/
theorem b64Decode_encodeURL (b : List Nat) (hb : ∀ x ∈ b, x < 256) :
    b64Decode (encodeURL b) = some b := by
  have hmem := encodeChunks_forall encCharURL
      (fun c => c ≠ 61 ∧ c ≠ 43 ∧ c ≠ 47 ∧ c ≠ 13 ∧ c ≠ 10)
      (fun i hi => encCharURL_avoid ⟨i, hi⟩) b hb
  have hE : encodeURL b =
      encodeChunks encCharURL b ++ List.replicate ((3 - b.length % 3) % 3) 61 := by
    simp [encodeURL, encodeB64]
  cases hk : (3 - b.length % 3) % 3 with
  | zero =>
      have hE0 : encodeURL b = encodeChunks encCharURL b := by
        rw [hE, hk]; simp
      have hraw := b64Decode_encodeRawURL b hb
      rw [show encodeRawURL b = encodeChunks encCharURL b from by
        simp [encodeRawURL, encodeB64]] at hraw
      rw [hE0]; exact hraw
  | succ n =>
      rw [hE, hk]
      have hsmem : ∀ c ∈ encodeChunks encCharURL b ++ List.replicate (n + 1) 61,
          (c ≠ 43 ∧ c ≠ 47) ∧ c ≠ 13 ∧ c ≠ 10 :=
        mem_pad_cases _ _
          (fun c hc => ⟨⟨(hmem c hc).2.1, (hmem c hc).2.2.1⟩,
            (hmem c hc).2.2.2.1, (hmem c hc).2.2.2.2⟩)
          (by omega)
      have hchmem : ∀ c ∈ encodeChunks encCharURL b, c ≠ 61 :=
        fun c hc => (hmem c hc).1
      have hrm := removeTrailingEq_append (encodeChunks encCharURL b) hchmem (n + 1)
      have hlast := lastIsEq_append_pad (encodeChunks encCharURL b) n
      have hnl := stripNewlines_eq (encodeChunks encCharURL b ++ List.replicate (n + 1) 61)
        (fun c hc => (hsmem c hc).2)
      have hpad := decodePadded_encodeB64 encCharURL decCharURL
        (fun i hi => decCharURL_encCharURL ⟨i, hi⟩)
        (fun i hi => (encCharURL_avoid ⟨i, hi⟩).1) b hb
      rw [show encodeB64 encCharURL true b =
          encodeChunks encCharURL b ++ List.replicate (n + 1) 61 from by
        simp [encodeB64]; rw [hk]] at hpad
      cases hscan : scanIsURL (encodeChunks encCharURL b ++ List.replicate (n + 1) 61) with
      | true =>
          have hv : b64EncodingGo (encodeChunks encCharURL b ++ List.replicate (n + 1) 61)
              = some B64Variant.urlPadded := by
            rw [b64EncodingGo_eq, hscan, hlast]
          simp only [b64Decode, hv, decodeWith, hnl]
          exact hpad
      | false =>
          have hnochar := no_url_chars_of_scan_false
            (encodeChunks encCharURL b ++ List.replicate (n + 1) 61)
            (fun c hc => (hsmem c hc).1) hscan
          have hagree : ∀ c ∈ removeTrailingEq
              (encodeChunks encCharURL b ++ List.replicate (n + 1) 61),
              decCharStd c = decCharURL c := by
            rw [hrm]
            intro c hc
            have hcs : c ∈ encodeChunks encCharURL b ++ List.replicate (n + 1) 61 :=
              List.mem_append_left _ hc
            exact (decChar_agree c (hmem c hc).2.1 (hnochar c hcs).1
              (hmem c hc).2.2.1 (hnochar c hcs).2).symm
          have hv : b64EncodingGo (encodeChunks encCharURL b ++ List.replicate (n + 1) 61)
              = some B64Variant.stdPadded := by
            rw [b64EncodingGo_eq, hscan, hlast]
          simp only [b64Decode, hv, decodeWith, hnl]
          rw [decodePadded_congr decCharStd decCharURL _ hagree]
          exact hpad

/-! ## Claims about the base64 codec (C7, C8, C9) -/

/-- C7: For every byte sequence b and each of the four base64 variants
(standard padded, standard unpadded, URL padded, URL unpadded), applying
`b64Decode` to the encoding of b in that variant succeeds and returns
exactly b. -/
theorem C7_b64_roundtrip (b : List Nat) (hb : ∀ x ∈ b, x < 256) :
    b64Decode (encodeStd b) = some b ∧
    b64Decode (encodeRawStd b) = some b ∧
    b64Decode (encodeURL b) = some b ∧
    b64Decode (encodeRawURL b) = some b :=
  ⟨b64Decode_encodeStd b hb, b64Decode_encodeRawStd b hb,
   b64Decode_encodeURL b hb, b64Decode_encodeRawURL b hb⟩

/-- Witness for C7 at the concrete byte sequence `[0, 77, 255, 10]`. -/
theorem C7_b64_roundtrip_witness :
    (∀ x ∈ [0, 77, 255, 10], x < 256) ∧
    (b64Decode (encodeStd [0, 77, 255, 10]) = some [0, 77, 255, 10] ∧
     b64Decode (encodeRawStd [0, 77, 255, 10]) = some [0, 77, 255, 10] ∧
     b64Decode (encodeURL [0, 77, 255, 10]) = some [0, 77, 255, 10] ∧
     b64Decode (encodeRawURL [0, 77, 255, 10]) = some [0, 77, 255, 10]) :=
  ⟨by decide, C7_b64_roundtrip [0, 77, 255, 10] (by decide)⟩

/-- The first character among `-`, `_`, `+`, `/`, if any. -/
def firstMarker (s : List Nat) : Option Nat :=
  s.find? (fun c => c == 45 || c == 95 || c == 43 || c == 47)

/-- Spec-side variant detection, amended to match the code: the variant is
URL exactly when the first marker character is `-` or `_`; with no marker
present the variant is standard; padding is selected iff the final
character is `=`. -/
def detectVariantSpec (s : List Nat) : B64Variant :=
  let isURL := match firstMarker s with
    | some c => c == 45 || c == 95
    | none => false
  match isURL, s.getLast? == some 61 with
  | true, true => B64Variant.urlPadded
  | true, false => B64Variant.urlRaw
  | false, true => B64Variant.stdPadded
  | false, false => B64Variant.stdRaw

/-- The scan loop agrees with the first-marker classification. -/
theorem scanIsURL_eq_marker (s : List Nat) :
    scanIsURL s = (match firstMarker s with
      | some c => c == 45 || c == 95
      | none => false) := by
  induction s with
  | nil => rfl
  | cons c t ih =>
      by_cases h1 : (c == 45 || c == 95) = true
      · have hp : (c == 45 || c == 95 || c == 43 || c == 47) = true := by
          rcases Bool.or_eq_true_iff.mp h1 with h | h <;> simp [h]
        rw [show firstMarker (c :: t) = some c from List.find?_cons_of_pos _ hp]
        simp [scanIsURL, h1]
      · have h1f : (c == 45 || c == 95) = false := Bool.eq_false_iff.mpr h1
        by_cases h2 : (c == 43 || c == 47) = true
        · have hp : (c == 45 || c == 95 || c == 43 || c == 47) = true := by
            rcases Bool.or_eq_true_iff.mp h2 with h | h <;> simp [h]
          rw [show firstMarker (c :: t) = some c from List.find?_cons_of_pos _ hp]
          simp [scanIsURL, h1f, h2]
        · have h2f : (c == 43 || c == 47) = false := Bool.eq_false_iff.mpr h2
          have hp : ¬ (c == 45 || c == 95 || c == 43 || c == 47) = true := by
            cases e45 : (c == 45) <;> cases e95 : (c == 95) <;>
              cases e43 : (c == 43) <;> cases e47 : (c == 47) <;> simp_all
          rw [show firstMarker (c :: t) = firstMarker t from
            List.find?_cons_of_neg _ hp]
          simp only [scanIsURL, h1f, h2f, Bool.false_eq_true, if_false]
          exact ih

/-- C8 amended: `b64Encoding` selects the variant by the first marker
character, with the standard variant as the default when no marker occurs,
and padding iff the final character is `=`. -/
theorem C8_detection_amended (s : List Nat) :
    b64EncodingGo s = some (detectVariantSpec s) := by
  rw [b64EncodingGo_eq, detectVariantSpec, scanIsURL_eq_marker]
  rfl

/-- C8 counterexample: `"QUJD"` contains none of `-`, `_`, `+`, `/`, yet
`b64Encoding` selects the standard (not the URL) variant for it. -/
theorem C8_counterexample :
    (∀ c ∈ ascii "QUJD", c ≠ 45 ∧ c ≠ 95 ∧ c ≠ 43 ∧ c ≠ 47) ∧
    b64EncodingGo (ascii "QUJD") = some B64Variant.stdRaw ∧
    B64Variant.stdRaw ≠ B64Variant.urlRaw ∧
    B64Variant.stdRaw ≠ B64Variant.urlPadded := by
  decide

/-- C9: `b64Encoding` is total — it always resolves to one of the four
decoders, and the `panic` fall-through (the `none` branch of the embedding)
is unreachable. -/
theorem C9_b64Encoding_total (s : List Nat) : (b64EncodingGo s).isSome = true := by
  rw [b64EncodingGo_eq]
  rfl

/-! ## The webpush data model

Go strings and byte slices are `List Nat`.  `http.Client` is a parameter of
`Send`; the `*ecdsa.PrivateKey` VAPID key is represented by the abstract
signing function and public-key bytes in `Env`. -/

/-- `Urgency` (webpush.go line 61). -/
abbrev Urgency := List Nat

/-- `Urgency.isValid` (webpush.go lines 74-80). -/
def Urgency.isValid (u : Urgency) : Bool :=
  u == ascii "very-low" || u == ascii "low" || u == ascii "normal" || u == ascii "high"

/-- `Keys` (webpush.go lines 200-203): base64-encoded values from the user
agent. -/
structure Keys where
  auth : List Nat
  p256dh : List Nat
deriving DecidableEq

/-- `Subscription` (webpush.go lines 206-209). -/
structure Subscription where
  endpoint : List Nat
  keys : Keys
deriving DecidableEq

/-- `Config` (webpush.go lines 188-197).  `Client` is passed to `Send`
directly and `VAPIDKey` lives in `Env`; `TTL` is embedded as whole seconds
(the code rounds the duration to seconds for the header anyway) and
`VAPIDExpiration` as unix seconds with `0` for Go's zero `time.Time`. -/
structure Config where
  subscriber : List Nat
  ttlSeconds : Int
  topic : List Nat
  urgency : Urgency
  recordSize : Int
  vapidExpiration : Int
deriving DecidableEq

/-- Result of `url.Parse`: the fields of `*url.URL` the code reads. -/
structure URLParts where
  scheme : List Nat
  host : List Nat
  path : List Nat
deriving DecidableEq

/-- The claim set of the VAPID JWT (webpush.go lines 159-163). -/
structure Claims where
  aud : List Nat
  exp : Int
  sub : List Nat
deriving DecidableEq

/-- Effectful/cryptographic dependencies of one `Send` call.

* `salt` — the 16 random bytes drawn at webpush.go line 245 (the read from
  `rand.Reader` is modelled as succeeding; its failure path returns the
  reader's error and sends nothing).
* `ephPub` — `appServerPrivateKey.PublicKey().Bytes()` for the ephemeral
  P-256 key freshly generated at line 251 (65 bytes, uncompressed).
* `validPoint` — whether `ecdh.P256().NewPublicKey` accepts the decoded
  client key bytes (line 257).
* `ecdh` — `appServerPrivateKey.ECDH` (line 263), i.e. ECDH against the
  ephemeral private key.
* `hkdf` — the HKDF-SHA-256 stream `hkdf.New(sha256.New, secret, salt,
  info)` read to a given length (webpush.go lines 180-185); the lengths
  used (32, 16, 12) are far below the 8160-byte HKDF-SHA-256 limit, so
  `io.ReadFull` cannot fail and the model is total.
* `gcmSeal` — AES-128-GCM `gcm.Seal` as `key → nonce → additionalData →
  plaintext → ciphertext‖tag`; `aes.NewCipher`/`cipher.NewGCM` cannot fail
  on the 16-byte HKDF-derived key, so setup is not a separate failure point.
* `urlParse` — `url.Parse`, used by `http.NewRequest` (line 316) and
  `makeAuthHeader` (line 146).
* `sign` — `jwt.NewWithClaims(jwt.SigningMethodES256, …).SignedString
  (vapidKey)`: ECDSA-SHA-256 signing of the claims with the configured
  VAPID private key (line 165).
* `vapidPub` — `vapidKey.PublicKey.Bytes()` (line 171).
* `now` — `time.Now()` as unix seconds, for the default expiration. -/
structure Env where
  salt : List Nat
  ephPub : List Nat
  validPoint : List Nat → Bool
  ecdh : List Nat → List Nat
  hkdf : List Nat → List Nat → List Nat → Nat → List Nat
  gcmSeal : List Nat → List Nat → List Nat → List Nat → List Nat
  urlParse : List Nat → Option URLParts
  sign : Claims → Option (List Nat)
  vapidPub : List Nat
  now : Int

/-- An assembled `*http.Request` (method is always POST): target URL, body
bytes, and headers as set by `req.Header.Set`. -/
structure Request where
  url : List Nat
  body : List Nat
  headers : List (List Nat × List Nat)
deriving DecidableEq

/-- `req.Header.Set`: replace an existing header value or append a new
header. -/
def setHeader (req : Request) (k v : List Nat) : Request :=
  { req with headers :=
      if req.headers.any (fun p => p.1 == k) then
        req.headers.map (fun p => if p.1 == k then (k, v) else p)
      else req.headers ++ [(k, v)] }

/-- `req.Header.Get`. -/
def getHeader (req : Request) (k : List Nat) : Option (List Nat) :=
  (req.headers.find? (fun p => p.1 == k)).map (fun p => p.2)

/-- The distinct error returns of `Send`/`makeAuthHeader`. -/
inductive SendErr
  | invalidSubscription
  | messageTooLong
  | invalidAuth
  | invalidPublicKey
  | invalidPoint
  | requestErr
  | invalidUrgency
  | urlParseErr
  | invalidEndpoint
  | invalidSubscriber
  | signErr
deriving DecidableEq

/-- `webPushInfo` (webpush.go line 212). -/
def webPushInfo : List Nat := ascii "WebPush: info" ++ [0]

/-- `contentEncryptionKeyInfo` (webpush.go line 213). -/
def contentEncryptionKeyInfo : List Nat := ascii "Content-Encoding: aes128gcm" ++ [0]

/-- `nonceInfo` (webpush.go line 214). -/
def nonceInfo : List Nat := ascii "Content-Encoding: nonce" ++ [0]

/-- Go's `uint32(n)` conversion of an `int`. -/
def intToUint32 (n : Int) : Nat := (n % 4294967296).toNat

/-- `binary.BigEndian.AppendUint32`: big-endian bytes of a 32-bit value. -/
def be32 (u : Nat) : List Nat :=
  [u / 16777216 % 256, u / 65536 % 256, u / 256 % 256, u % 256]

/-- Decimal digits of a natural number, as ASCII bytes. -/
def natToAscii (n : Nat) : List Nat := (Nat.toDigits 10 n).map Char.toNat

/-- `strconv.Itoa`. -/
def intToAscii (n : Int) : List Nat :=
  if n < 0 then 45 :: natToAscii n.natAbs else natToAscii n.toNat

/-- The record size used by `Send` (webpush.go lines 219-222): the
configured `RecordSize`, or 4096 (`maxRecordSize`) when it is zero. -/
def effectiveRecordSize (conf : Config) : Int :=
  if conf.recordSize = 0 then 4096 else conf.recordSize

/-- The length check of `Send` (webpush.go line 229):
`len(message) > recordSize - minOverhead` with `minOverhead = 103`. -/
def messageTooLongCheck (msgLen : Nat) (recordSize : Int) : Bool :=
  (msgLen : Int) > recordSize - 103

/-- `makeAuthHeader` (webpush.go lines 140-178). -/
def makeAuthHeader (env : Env) (endpoint subscriber : List Nat)
    (expiration : Int) : Except SendErr (List Nat) :=
  match env.urlParse endpoint with
  | none => .error .urlParseErr
  | some u =>
      if u.scheme = [] ∨ u.host = [] then .error .invalidEndpoint
      else if !((ascii "https:").isPrefixOf subscriber
          || (ascii "mailto:").isPrefixOf subscriber) then
        .error .invalidSubscriber
      else
        match env.sign ⟨u.scheme ++ ascii "://" ++ u.host, expiration, subscriber⟩ with
        | none => .error .signErr
        | some jwt =>
            .ok (ascii "vapid t=" ++ jwt ++ ascii ", k=" ++ encodeRawURL env.vapidPub)

/-- `Send` (webpush.go lines 218-352), instrumented with the list of
requests handed to the transport: the result is the value returned
(`conf.Client.Do(req)` is `client req`) together with every request passed
to the client during the call.

The in-place `gcm.Seal` into the record buffer (lines 300-314) is modelled
functionally: the final record is the 86-byte header followed by
`gcm.Seal(nil, nonce, message‖0x02, nil)`, which is what the buffer holds
after the `record[0:cap]` resize. -/
def Send {ρ : Type} (env : Env) (client : Request → ρ) (message : List Nat)
    (s : Subscription) (conf : Config) : Except SendErr ρ × List Request :=
  let recordSize : Int := effectiveRecordSize conf
  if s.endpoint = [] ∨ s.keys.auth = [] ∨ s.keys.p256dh = [] then
    (.error .invalidSubscription, [])
  else if messageTooLongCheck message.length recordSize then
    (.error .messageTooLong, [])
  else
    match b64Decode s.keys.auth with
    | none => (.error .invalidAuth, [])
    | some authSecret =>
      match b64Decode s.keys.p256dh with
      | none => (.error .invalidPublicKey, [])
      | some userAgentPublicKeyBytes =>
          if !env.validPoint userAgentPublicKeyBytes then
            (.error .invalidPoint, [])
          else
            let sharedSecret := env.ecdh userAgentPublicKeyBytes
            let keyInfo := webPushInfo ++ userAgentPublicKeyBytes ++ env.ephPub
            let ikm := env.hkdf sharedSecret authSecret keyInfo 32
            let contentEncryptionKey := env.hkdf ikm env.salt contentEncryptionKeyInfo 16
            let nonce := env.hkdf ikm env.salt nonceInfo 12
            let record := env.salt ++ be32 (intToUint32 recordSize) ++
              [env.ephPub.length % 256] ++ env.ephPub ++
              env.gcmSeal contentEncryptionKey nonce [] (message ++ [2])
            match env.urlParse s.endpoint with
            | none => (.error .requestErr, [])
            | some _ =>
                let req0 : Request := ⟨s.endpoint, record, []⟩
                let req1 := setHeader req0 (ascii "Content-Encoding") (ascii "aes128gcm")
                let req2 := setHeader req1 (ascii "Content-Type")
                  (ascii "application/octet-stream")
                let req3 := setHeader req2 (ascii "TTL") (intToAscii conf.ttlSeconds)
                let req4 := if conf.topic ≠ [] then
                    setHeader req3 (ascii "Topic") conf.topic
                  else req3
                let finish := fun (req : Request) =>
                  let expiration := if conf.vapidExpiration = 0 then env.now + 43200
                    else conf.vapidExpiration
                  match makeAuthHeader env s.endpoint conf.subscriber expiration with
                  | .error e => ((Except.error e : Except SendErr ρ), ([] : List Request))
                  | .ok authHeader =>
                      let reqA := setHeader req (ascii "Authorization") authHeader
                      (.ok (client reqA), [reqA])
                if conf.urgency = [] then finish req4
                else if Urgency.isValid conf.urgency then
                  finish (setHeader req4 (ascii "Urgency") conf.urgency)
                else (.error .invalidUrgency, [])

deriving instance DecidableEq for Except

/-- `setHeader` never changes the body. -/
theorem setHeader_body (r : Request) (k v : List Nat) :
    (setHeader r k v).body = r.body := rfl

/-- `setHeader` never changes the URL. -/
theorem setHeader_url (r : Request) (k v : List Nat) :
    (setHeader r k v).url = r.url := rfl

/-- Replacing the value under key `k` does not affect lookups of `q ≠ k`. -/
theorem find?_set_ne (l : List (List Nat × List Nat)) (k v q : List Nat)
    (hqk : q ≠ k) :
    (l.map (fun p => if p.1 == k then (k, v) else p)).find? (fun p => p.1 == q) =
      l.find? (fun p => p.1 == q) := by
  have hkq : (k == q) = false := by
    simp only [beq_eq_false_iff_ne, ne_eq]
    exact fun h => hqk h.symm
  induction l with
  | nil => rfl
  | cons p t ih =>
      rw [List.map_cons]
      by_cases hpk : (p.1 == k) = true
      · have hp1 : p.1 = k := by simpa using hpk
        have hpq : (p.1 == q) = false := by rw [hp1]; exact hkq
        rw [if_pos hpk]
        simp only [List.find?, hkq, hpq]
        exact ih
      · rw [if_neg hpk]
        by_cases hpq : (p.1 == q) = true
        · simp only [List.find?, hpq]
        · have hpq' : (p.1 == q) = false := Bool.eq_false_iff.mpr hpq
          simp only [List.find?, hpq']
          exact ih

/-- Appending an entry with a different key preserves an absent lookup. -/
theorem find?_append_none (l : List (List Nat × List Nat)) (k v q : List Nat)
    (hkq : (k == q) = false)
    (h : l.find? (fun p => p.1 == q) = none) :
    (l ++ [(k, v)]).find? (fun p => p.1 == q) = none := by
  induction l with
  | nil => simp [List.find?, hkq]
  | cons p t ih =>
      by_cases hpq : (p.1 == q) = true
      · simp only [List.find?, hpq] at h
        exact absurd h (by simp)
      · have hpq' : (p.1 == q) = false := Bool.eq_false_iff.mpr hpq
        simp only [List.find?, hpq'] at h
        rw [List.cons_append]
        simp only [List.find?, hpq']
        exact ih h

/-- If a header is absent it stays absent under `setHeader` with a different
key. -/
theorem getHeader_setHeader_none (r : Request) (k v q : List Nat)
    (hqk : q ≠ k) (hr : getHeader r q = none) :
    getHeader (setHeader r k v) q = none := by
  have hkq : (k == q) = false := by
    simp only [beq_eq_false_iff_ne, ne_eq]
    exact fun h => hqk h.symm
  unfold getHeader at hr
  have hfind : r.headers.find? (fun p => p.1 == q) = none := by
    cases hf : r.headers.find? (fun p => p.1 == q) with
    | none => rfl
    | some p => rw [hf] at hr; simp at hr
  unfold getHeader setHeader
  by_cases hany : r.headers.any (fun p => p.1 == k) = true
  · simp only [hany, if_true]
    rw [find?_set_ne _ _ _ _ hqk, hfind]
    rfl
  · rw [if_neg hany, find?_append_none _ _ _ _ hkq hfind]
    rfl

/-- Characterization of a `Send` call that reaches the transport: the client
keys decoded, the point was accepted, the auth header was built, and the
single request carries the encrypted record as its body. -/
theorem Send_snd_eq {ρ : Type} (env : Env) (client : Request → ρ)
    (message : List Nat) (s : Subscription) (conf : Config) (req : Request)
    (hreq : (Send env client message s conf).snd = [req]) :
    ∃ authSecret uaPub authHeader,
      b64Decode s.keys.auth = some authSecret ∧
      b64Decode s.keys.p256dh = some uaPub ∧
      env.validPoint uaPub = true ∧
      makeAuthHeader env s.endpoint conf.subscriber
        (if conf.vapidExpiration = 0 then env.now + 43200 else conf.vapidExpiration)
        = .ok authHeader ∧
      req.url = s.endpoint ∧
      req.body =
        env.salt ++ be32 (intToUint32 (effectiveRecordSize conf)) ++
        [env.ephPub.length % 256] ++ env.ephPub ++
        env.gcmSeal
          (env.hkdf (env.hkdf (env.ecdh uaPub) authSecret
            (webPushInfo ++ uaPub ++ env.ephPub) 32) env.salt contentEncryptionKeyInfo 16)
          (env.hkdf (env.hkdf (env.ecdh uaPub) authSecret
            (webPushInfo ++ uaPub ++ env.ephPub) 32) env.salt nonceInfo 12)
          [] (message ++ [2]) ∧
      (conf.urgency = [] → getHeader req (ascii "Urgency") = none) := by
  simp only [Send] at hreq
  split at hreq
  · simp at hreq
  · split at hreq
    · simp at hreq
    · split at hreq
      · simp at hreq
      · split at hreq
        · simp at hreq
        · split at hreq
          · simp at hreq
          · split at hreq
            · simp at hreq
            · split at hreq
              · -- urgency = [] branch
                split at hreq
                · simp at hreq
                · simp only [List.cons.injEq, and_true] at hreq
                  subst hreq
                  rename b64Decode s.keys.auth = some _ => hauth
                  rename b64Decode s.keys.p256dh = some _ => hp
                  rename makeAuthHeader _ _ _ _ = Except.ok _ => hmk
                  refine ⟨_, _, _, hauth, hp, ?_, hmk, ?_, ?_, ?_⟩
                  · by_contra hvp
                    simp_all
                  · by_cases ht : conf.topic ≠ [] <;> simp [ht, setHeader_url]
                  · by_cases ht : conf.topic ≠ [] <;> simp [ht, setHeader_body]
                  · intro _
                    by_cases ht : conf.topic ≠ []
                    · rw [if_pos ht]
                      apply getHeader_setHeader_none _ _ _ _ (by decide)
                      apply getHeader_setHeader_none _ _ _ _ (by decide)
                      apply getHeader_setHeader_none _ _ _ _ (by decide)
                      apply getHeader_setHeader_none _ _ _ _ (by decide)
                      apply getHeader_setHeader_none _ _ _ _ (by decide)
                      rfl
                    · rw [if_neg ht]
                      apply getHeader_setHeader_none _ _ _ _ (by decide)
                      apply getHeader_setHeader_none _ _ _ _ (by decide)
                      apply getHeader_setHeader_none _ _ _ _ (by decide)
                      apply getHeader_setHeader_none _ _ _ _ (by decide)
                      rfl
              · split at hreq
                · split at hreq
                  · simp at hreq
                  · simp only [List.cons.injEq, and_true] at hreq
                    subst hreq
                    rename b64Decode s.keys.auth = some _ => hauth
                    rename b64Decode s.keys.p256dh = some _ => hp
                    rename makeAuthHeader _ _ _ _ = Except.ok _ => hmk
                    refine ⟨_, _, _, hauth, hp, ?_, hmk, ?_, ?_, ?_⟩
                    · by_contra hvp
                      simp_all
                    · by_cases ht : conf.topic ≠ [] <;> simp [ht, setHeader_url]
                    · by_cases ht : conf.topic ≠ [] <;> simp [ht, setHeader_body]
                    · intro hcontra
                      simp_all
                · simp at hreq

/-- `be32` always yields four bytes. -/
theorem be32_length (u : Nat) : (be32 u).length = 4 := rfl

/-- A concrete environment used by the witnesses below. -/
def envC : Env :=
  { salt := List.replicate 16 7
    ephPub := List.replicate 65 4
    validPoint := fun _ => true
    ecdh := fun _ => [1, 2, 3]
    hkdf := fun _ _ _ n => List.replicate n 9
    gcmSeal := fun _ _ _ p => p ++ List.replicate 16 0
    urlParse := fun _ => some ⟨ascii "https", ascii "push.example", ascii "/sub"⟩
    sign := fun _ => some (ascii "HDR.PAYLOAD.SIG")
    vapidPub := List.replicate 65 5
    now := 1000 }

/-- A concrete complete subscription used by the witnesses below. -/
def subC : Subscription :=
  ⟨ascii "https://push.example/sub", ⟨ascii "RW2w", ascii "QUJD"⟩⟩

/-- A concrete configuration used by the witnesses below. -/
def confC : Config :=
  { subscriber := ascii "mailto:admin@app.server"
    ttlSeconds := 30
    topic := []
    urgency := []
    recordSize := 0
    vapidExpiration := 99 }

/-- The request produced by a concrete successful `Send` call. -/
def reqC : Request :=
  ((Send envC (fun r => r) (ascii "hi") subC confC).snd).headD ⟨[], [], []⟩

/-- C1: for every call to `Send` that reaches encryption (hands a request to
the transport), the key schedule is exactly: `sharedSecret` is the ECDH of
the freshly generated ephemeral P-256 key with the decoded client public
key; `IKM` is 32 bytes of HKDF-SHA-256 with secret `sharedSecret`, salt the
decoded `authSecret`, info `"WebPush: info\x00" ‖ clientPublicKey ‖
ephemeralPublicKey`; `contentEncryptionKey` is 16 bytes of HKDF with secret
`IKM`, salt the 16-byte random salt and info
`"Content-Encoding: aes128gcm\x00"`; `nonce` is 12 bytes of HKDF with the
same salt and info `"Content-Encoding: nonce\x00"`; and the sealed part of
the record is the AES-128-GCM seal of `message ‖ 0x02` under that key and
nonce with no associated data (`[]`). -/
theorem C1_key_schedule {ρ : Type} (env : Env) (client : Request → ρ)
    (message : List Nat) (s : Subscription) (conf : Config) (req : Request)
    (hlen : ∀ se sa i n, (env.hkdf se sa i n).length = n)
    (hreq : (Send env client message s conf).snd = [req]) :
    ∃ authSecret uaPub,
      b64Decode s.keys.auth = some authSecret ∧
      b64Decode s.keys.p256dh = some uaPub ∧
      env.validPoint uaPub = true ∧
      (env.hkdf (env.ecdh uaPub) authSecret
        (webPushInfo ++ uaPub ++ env.ephPub) 32).length = 32 ∧
      (env.hkdf (env.hkdf (env.ecdh uaPub) authSecret
        (webPushInfo ++ uaPub ++ env.ephPub) 32)
        env.salt contentEncryptionKeyInfo 16).length = 16 ∧
      (env.hkdf (env.hkdf (env.ecdh uaPub) authSecret
        (webPushInfo ++ uaPub ++ env.ephPub) 32)
        env.salt nonceInfo 12).length = 12 ∧
      req.body =
        env.salt ++ be32 (intToUint32 (effectiveRecordSize conf)) ++
        [env.ephPub.length % 256] ++ env.ephPub ++
        env.gcmSeal
          (env.hkdf (env.hkdf (env.ecdh uaPub) authSecret
            (webPushInfo ++ uaPub ++ env.ephPub) 32) env.salt contentEncryptionKeyInfo 16)
          (env.hkdf (env.hkdf (env.ecdh uaPub) authSecret
            (webPushInfo ++ uaPub ++ env.ephPub) 32) env.salt nonceInfo 12)
          [] (message ++ [2]) := by
  obtain ⟨a, ua, ah, h1, h2, h3, h4, h5, h6, h7⟩ :=
    Send_snd_eq env client message s conf req hreq
  exact ⟨a, ua, h1, h2, h3, hlen _ _ _ _, hlen _ _ _ _, hlen _ _ _ _, h6⟩

/-- Witness for C1: the concrete call behind `reqC` satisfies the key
schedule. -/
theorem C1_key_schedule_witness :
    ∃ authSecret uaPub,
      b64Decode subC.keys.auth = some authSecret ∧
      b64Decode subC.keys.p256dh = some uaPub ∧
      envC.validPoint uaPub = true ∧
      (envC.hkdf (envC.ecdh uaPub) authSecret
        (webPushInfo ++ uaPub ++ envC.ephPub) 32).length = 32 ∧
      (envC.hkdf (envC.hkdf (envC.ecdh uaPub) authSecret
        (webPushInfo ++ uaPub ++ envC.ephPub) 32)
        envC.salt contentEncryptionKeyInfo 16).length = 16 ∧
      (envC.hkdf (envC.hkdf (envC.ecdh uaPub) authSecret
        (webPushInfo ++ uaPub ++ envC.ephPub) 32)
        envC.salt nonceInfo 12).length = 12 ∧
      reqC.body =
        envC.salt ++ be32 (intToUint32 (effectiveRecordSize confC)) ++
        [envC.ephPub.length % 256] ++ envC.ephPub ++
        envC.gcmSeal
          (envC.hkdf (envC.hkdf (envC.ecdh uaPub) authSecret
            (webPushInfo ++ uaPub ++ envC.ephPub) 32) envC.salt contentEncryptionKeyInfo 16)
          (envC.hkdf (envC.hkdf (envC.ecdh uaPub) authSecret
            (webPushInfo ++ uaPub ++ envC.ephPub) 32) envC.salt nonceInfo 12)
          [] (ascii "hi" ++ [2]) :=
  C1_key_schedule envC (fun r => r) (ascii "hi") subC confC reqC
    (fun _ _ _ n => by simp [envC]) (by decide)

/-- C2: for every accepted message the request body is exactly salt (16
bytes), the record size limit as a 4-byte big-endian unsigned integer, a
length byte equal to 65, the 65-byte uncompressed ephemeral public key, and
the ciphertext-plus-16-byte-tag covering `message ‖ 0x02`; the total record
length is `86 + len(message) + 1 + 16`, independent of the record size
limit — the record is never padded up to it. -/
theorem C2_record_layout {ρ : Type} (env : Env) (client : Request → ρ)
    (message : List Nat) (s : Subscription) (conf : Config) (req : Request)
    (h65 : env.ephPub.length = 65)
    (hsalt : env.salt.length = 16)
    (hseal : ∀ k n a p, (env.gcmSeal k n a p).length = p.length + 16)
    (hreq : (Send env client message s conf).snd = [req]) :
    (∃ cek nonce, req.body =
      env.salt ++ be32 (intToUint32 (effectiveRecordSize conf)) ++ [65] ++
      env.ephPub ++ env.gcmSeal cek nonce [] (message ++ [2])) ∧
    req.body.length = 86 + message.length + 1 + 16 := by
  obtain ⟨a, ua, ah, h1, h2, h3, h4, h5, h6, h7⟩ :=
    Send_snd_eq env client message s conf req hreq
  constructor
  · refine ⟨env.hkdf (env.hkdf (env.ecdh ua) a (webPushInfo ++ ua ++ env.ephPub) 32)
        env.salt contentEncryptionKeyInfo 16,
      env.hkdf (env.hkdf (env.ecdh ua) a (webPushInfo ++ ua ++ env.ephPub) 32)
        env.salt nonceInfo 12, ?_⟩
    rw [h6, h65]
  · rw [h6]
    simp only [List.length_append, be32_length, List.length_cons, List.length_nil,
      h65, hsalt, hseal, List.length_append]
    omega

/-- Witness for C2 at the concrete call behind `reqC`. -/
theorem C2_record_layout_witness :
    (∃ cek nonce, reqC.body =
      envC.salt ++ be32 (intToUint32 (effectiveRecordSize confC)) ++ [65] ++
      envC.ephPub ++ envC.gcmSeal cek nonce [] (ascii "hi" ++ [2])) ∧
    reqC.body.length = 86 + (ascii "hi").length + 1 + 16 :=
  C2_record_layout envC (fun r => r) (ascii "hi") subC confC reqC
    (by decide) (by decide) (fun k n a p => by simp [envC]) (by decide)

/-- C3: `makeAuthHeader` validates, before any signing (the error is
produced for every signing function), that the parsed endpoint has a
non-empty scheme and host and that the subscriber starts with `https:` or
`mailto:`; on success the output is exactly
`"vapid t=" ‖ JWT ‖ ", k=" ‖ base64url(VAPID public key)` where the JWT is
signed over the claims `aud = scheme ‖ "://" ‖ host` (the path is ignored
for every endpoint), `exp` the expiry in unix seconds, and `sub` the
subscriber. -/
theorem C3_makeAuthHeader (env : Env) (endpoint subscriber : List Nat)
    (expiration : Int) (u : URLParts) (hu : env.urlParse endpoint = some u) :
    ((u.scheme = [] ∨ u.host = []) →
      makeAuthHeader env endpoint subscriber expiration = .error .invalidEndpoint) ∧
    (¬(u.scheme = [] ∨ u.host = []) →
      ((ascii "https:").isPrefixOf subscriber
        || (ascii "mailto:").isPrefixOf subscriber) = false →
      makeAuthHeader env endpoint subscriber expiration = .error .invalidSubscriber) ∧
    (∀ out, makeAuthHeader env endpoint subscriber expiration = .ok out →
      ((ascii "https:").isPrefixOf subscriber
        || (ascii "mailto:").isPrefixOf subscriber) = true ∧
      ∃ jwt, env.sign ⟨u.scheme ++ ascii "://" ++ u.host, expiration, subscriber⟩
          = some jwt ∧
        out = ascii "vapid t=" ++ jwt ++ ascii ", k=" ++ encodeRawURL env.vapidPub) := by
  refine ⟨?_, ?_, ?_⟩
  · intro h
    unfold makeAuthHeader
    rw [hu]
    simp [h]
  · intro h hsub
    unfold makeAuthHeader
    rw [hu]
    simp [h, hsub]
  · intro out hout
    unfold makeAuthHeader at hout
    rw [hu] at hout
    by_cases h1 : u.scheme = [] ∨ u.host = []
    · simp [h1] at hout
    · by_cases h2 : ((ascii "https:").isPrefixOf subscriber
          || (ascii "mailto:").isPrefixOf subscriber) = true
      · refine ⟨h2, ?_⟩
        simp only [h1, h2, Bool.not_true, Bool.false_eq_true, if_false, if_neg] at hout
        cases hsign : env.sign ⟨u.scheme ++ ascii "://" ++ u.host, expiration, subscriber⟩ with
        | none =>
            rw [hsign] at hout
            exact absurd hout (by simp)
        | some jwt =>
            rw [hsign] at hout
            simp only [Except.ok.injEq] at hout
            exact ⟨jwt, rfl, hout.symm⟩
      · have h2f : ((ascii "https:").isPrefixOf subscriber
            || (ascii "mailto:").isPrefixOf subscriber) = false := Bool.eq_false_iff.mpr h2
        simp [h1, h2f] at hout

/-- Witness for C3: a concrete endpoint with a path component produces the
expected header with `aud` built only from scheme and host. -/
theorem C3_makeAuthHeader_witness :
    envC.urlParse (ascii "https://push.example/sub") =
        some ⟨ascii "https", ascii "push.example", ascii "/sub"⟩ ∧
    (((ascii "https:").isPrefixOf confC.subscriber
        || (ascii "mailto:").isPrefixOf confC.subscriber) = true ∧
      ∃ jwt, envC.sign ⟨ascii "https" ++ ascii "://" ++ ascii "push.example", 99,
          confC.subscriber⟩ = some jwt ∧
        ascii "vapid t=HDR.PAYLOAD.SIG, k=" ++ encodeRawURL envC.vapidPub =
          ascii "vapid t=" ++ jwt ++ ascii ", k=" ++ encodeRawURL envC.vapidPub) :=
  ⟨rfl, (C3_makeAuthHeader envC (ascii "https://push.example/sub") confC.subscriber 99
      ⟨ascii "https", ascii "push.example", ascii "/sub"⟩ rfl).2.2
    (ascii "vapid t=HDR.PAYLOAD.SIG, k=" ++ encodeRawURL envC.vapidPub) (by decide)⟩

/-- `makeAuthHeader` only ever fails with one of its own four errors. -/
theorem makeAuthHeader_error_mem (env : Env) (endpoint subscriber : List Nat)
    (expiration : Int) (e : SendErr)
    (h : makeAuthHeader env endpoint subscriber expiration = .error e) :
    e = SendErr.urlParseErr ∨ e = SendErr.invalidEndpoint ∨
    e = SendErr.invalidSubscriber ∨ e = SendErr.signErr := by
  unfold makeAuthHeader at h
  repeat' split at h
  all_goals simp_all

/-- A concrete configuration with record size 103, for the boundary
witness. -/
def conf103 : Config := { confC with recordSize := 103 }

/-- C4: for every record size limit R (the configured `RecordSize`, or 4096
when it is zero — `effectiveRecordSize`), a message of length `R − 103`
passes `Send`'s length check (and `Send` never returns the
message-too-long error for it), while a message of length `R − 102` is
rejected with the message-too-long error with no request sent, whatever the
cryptographic environment — the check precedes all cryptographic work. -/
theorem C4_length_boundary {ρ : Type} (env : Env) (client : Request → ρ)
    (s : Subscription) (conf : Config) (m1 m2 : List Nat)
    (h1 : (m1.length : Int) = effectiveRecordSize conf - 103)
    (h2 : (m2.length : Int) = effectiveRecordSize conf - 102)
    (hs : ¬(s.endpoint = [] ∨ s.keys.auth = [] ∨ s.keys.p256dh = [])) :
    messageTooLongCheck m1.length (effectiveRecordSize conf) = false ∧
    (Send env client m1 s conf).fst ≠ Except.error SendErr.messageTooLong ∧
    Send env client m2 s conf = (.error .messageTooLong, []) := by
  have hc1 : messageTooLongCheck m1.length (effectiveRecordSize conf) = false := by
    unfold messageTooLongCheck
    rw [h1]
    simp
  have hc2 : messageTooLongCheck m2.length (effectiveRecordSize conf) = true := by
    unfold messageTooLongCheck
    rw [h2]
    simp
  refine ⟨hc1, ?_, ?_⟩
  · intro hcontra
    simp only [Send] at hcontra
    rw [if_neg hs, hc1] at hcontra
    simp only [Bool.false_eq_true, if_false] at hcontra
    repeat' split at hcontra
    all_goals try simp_all
    all_goals
      rename makeAuthHeader _ _ _ _ = Except.error _ => hmk
    all_goals
      rcases makeAuthHeader_error_mem _ _ _ _ _ hmk with hx | hx | hx | hx <;> simp_all
  · simp only [Send]
    rw [if_neg hs, hc2]
    simp

/-- Witness for C4 at `R = 103`: the empty message passes, a one-byte
message is rejected. -/
theorem C4_length_boundary_witness :
    messageTooLongCheck ([] : List Nat).length (effectiveRecordSize conf103) = false ∧
    (Send envC (fun r => r) [] subC conf103).fst ≠ Except.error SendErr.messageTooLong ∧
    Send envC (fun r => r) [0] subC conf103 = (.error .messageTooLong, []) :=
  C4_length_boundary envC (fun r => r) subC conf103 [] [0]
    (by decide) (by decide) (by decide)

/-- A subscription whose auth secret is not valid base64. -/
def subBadAuth : Subscription :=
  ⟨ascii "https://push.example/sub", ⟨ascii "!", ascii "QUJD"⟩⟩

/-- A configuration with an invalid urgency value. -/
def confBogus : Config := { confC with urgency := ascii "bogus" }

/-- C5 counterexample: on an input with both an invalid urgency (`"bogus"`)
and a malformed auth secret (`"!"`), `Send` returns the invalid-auth error,
not the invalid-urgency error — the urgency check does not precede the
cipher. -/
theorem C5_counterexample :
    confBogus.urgency ≠ [] ∧
    Urgency.isValid confBogus.urgency = false ∧
    b64Decode subBadAuth.keys.auth = none ∧
    (Send envC (fun r => r) (ascii "hi") subBadAuth confBogus).fst
      = Except.error SendErr.invalidAuth ∧
    SendErr.invalidAuth ≠ SendErr.invalidUrgency := by
  decide

/-- C5 amended: `Send` performs its checks in the order subscription
completeness → message length → Cipher execution (auth-secret decode,
public-key decode, curve-point validation) → urgency validity → Token
Builder; in particular an input with both an invalid urgency and a
malformed auth secret yields the invalid-auth error. -/
theorem C5_check_order_amended {ρ : Type} (env : Env) (client : Request → ρ)
    (message : List Nat) (s : Subscription) (conf : Config) :
    ((s.endpoint = [] ∨ s.keys.auth = [] ∨ s.keys.p256dh = []) →
      Send env client message s conf = (.error .invalidSubscription, [])) ∧
    (¬(s.endpoint = [] ∨ s.keys.auth = [] ∨ s.keys.p256dh = []) →
      messageTooLongCheck message.length (effectiveRecordSize conf) = true →
      Send env client message s conf = (.error .messageTooLong, [])) ∧
    (¬(s.endpoint = [] ∨ s.keys.auth = [] ∨ s.keys.p256dh = []) →
      messageTooLongCheck message.length (effectiveRecordSize conf) = false →
      b64Decode s.keys.auth = none →
      Send env client message s conf = (.error .invalidAuth, [])) ∧
    (¬(s.endpoint = [] ∨ s.keys.auth = [] ∨ s.keys.p256dh = []) →
      messageTooLongCheck message.length (effectiveRecordSize conf) = false →
      (b64Decode s.keys.auth).isSome = true →
      b64Decode s.keys.p256dh = none →
      Send env client message s conf = (.error .invalidPublicKey, [])) ∧
    (¬(s.endpoint = [] ∨ s.keys.auth = [] ∨ s.keys.p256dh = []) →
      messageTooLongCheck message.length (effectiveRecordSize conf) = false →
      (b64Decode s.keys.auth).isSome = true →
      (∀ p, b64Decode s.keys.p256dh = some p → env.validPoint p = false) →
      (b64Decode s.keys.p256dh).isSome = true →
      Send env client message s conf = (.error .invalidPoint, [])) ∧
    (¬(s.endpoint = [] ∨ s.keys.auth = [] ∨ s.keys.p256dh = []) →
      messageTooLongCheck message.length (effectiveRecordSize conf) = false →
      (b64Decode s.keys.auth).isSome = true →
      (∀ p, b64Decode s.keys.p256dh = some p → env.validPoint p = true) →
      (b64Decode s.keys.p256dh).isSome = true →
      (env.urlParse s.endpoint).isSome = true →
      conf.urgency ≠ [] → Urgency.isValid conf.urgency = false →
      Send env client message s conf = (.error .invalidUrgency, [])) := by
  refine ⟨?_, ?_, ?_, ?_, ?_, ?_⟩
  · intro h
    simp only [Send]
    rw [if_pos h]
  · intro h hc
    simp only [Send]
    rw [if_neg h, hc]
    simp
  · intro h hc hdec
    simp only [Send]
    rw [if_neg h, hc]
    simp [hdec]
  · intro h hc hauth hdec
    obtain ⟨a, ha⟩ := Option.isSome_iff_exists.mp hauth
    simp only [Send]
    rw [if_neg h, hc]
    simp [ha, hdec]
  · intro h hc hauth hpoint hp
    obtain ⟨a, ha⟩ := Option.isSome_iff_exists.mp hauth
    obtain ⟨p, hpe⟩ := Option.isSome_iff_exists.mp hp
    have hv := hpoint p hpe
    simp only [Send]
    rw [if_neg h, hc]
    simp [ha, hpe, hv]
  · intro h hc hauth hpoint hp hurl hne hval
    obtain ⟨a, ha⟩ := Option.isSome_iff_exists.mp hauth
    obtain ⟨p, hpe⟩ := Option.isSome_iff_exists.mp hp
    obtain ⟨u, hue⟩ := Option.isSome_iff_exists.mp hurl
    have hv := hpoint p hpe
    simp only [Send]
    rw [if_neg h, hc]
    simp [ha, hpe, hv, hue, hne, hval]

/-- Witness for the amended C5 at a concrete input whose only defect is the
invalid urgency. -/
theorem C5_check_order_amended_witness :
    Send envC (fun r => r) (ascii "hi") subC confBogus
      = (.error .invalidUrgency, []) :=
  (C5_check_order_amended envC (fun r => r) (ascii "hi") subC confBogus).2.2.2.2.2
    (by decide) (by decide) (by decide) (fun p _ => rfl) (by decide) (by decide)
    (by decide) (by decide)

/-- Every `Send` call either fails with some error and an empty request
list, or succeeds with exactly the one request handed to the client. -/
theorem Send_pair_shape {ρ : Type} (env : Env) (client : Request → ρ)
    (message : List Nat) (s : Subscription) (conf : Config) :
    (∃ e, Send env client message s conf = (.error e, [])) ∨
    (∃ req, Send env client message s conf = (.ok (client req), [req])) := by
  simp only [Send]
  split
  · exact Or.inl ⟨_, rfl⟩
  · split
    · exact Or.inl ⟨_, rfl⟩
    · split
      · exact Or.inl ⟨_, rfl⟩
      · split
        · exact Or.inl ⟨_, rfl⟩
        · split
          · exact Or.inl ⟨_, rfl⟩
          · split
            · exact Or.inl ⟨_, rfl⟩
            · split
              · split
                · exact Or.inl ⟨_, rfl⟩
                · exact Or.inr ⟨_, rfl⟩
              · split
                · split
                  · exact Or.inl ⟨_, rfl⟩
                  · exact Or.inr ⟨_, rfl⟩
                · exact Or.inl ⟨_, rfl⟩

/-- An empty subscription, used by the C6 witness. -/
def subEmpty : Subscription := ⟨[], ⟨ascii "RW2w", ascii "QUJD"⟩⟩

/-- C6: whenever `Send` returns an error — missing fields, length bound,
invalid urgency, malformed base64, invalid endpoint or subscriber, or any
other failure — the transport client is never invoked: no request is handed
to it. -/
theorem C6_no_network_on_error {ρ : Type} (env : Env) (client : Request → ρ)
    (message : List Nat) (s : Subscription) (conf : Config) (e : SendErr)
    (herr : (Send env client message s conf).fst = Except.error e) :
    (Send env client message s conf).snd = [] := by
  rcases Send_pair_shape env client message s conf with ⟨e', he⟩ | ⟨req, hr⟩
  · rw [he]
  · rw [hr] at herr
    exact absurd herr (by simp)

/-- Witness for C6: a subscription with an empty endpoint errors and sends
nothing. -/
theorem C6_no_network_on_error_witness :
    (Send envC (fun r => r) (ascii "hi") subEmpty confC).fst
        = Except.error SendErr.invalidSubscription ∧
    (Send envC (fun r => r) (ascii "hi") subEmpty confC).snd = [] :=
  ⟨by decide, C6_no_network_on_error envC (fun r => r) (ascii "hi") subEmpty confC
    SendErr.invalidSubscription (by decide)⟩

/-- C10: with an empty `Urgency` the urgency is treated as absent — the
validity check is skipped (no invalid-urgency error, although the empty
string is itself not a valid urgency according to `isValid`) and no
`Urgency` header is set on the outgoing request. -/
theorem C10_empty_urgency {ρ : Type} (env : Env) (client : Request → ρ)
    (message : List Nat) (s : Subscription) (conf : Config)
    (hu : conf.urgency = []) :
    Urgency.isValid [] = false ∧
    (Send env client message s conf).fst ≠ Except.error SendErr.invalidUrgency ∧
    ∀ req ∈ (Send env client message s conf).snd,
      getHeader req (ascii "Urgency") = none := by
  refine ⟨by decide, ?_, ?_⟩
  · intro hcontra
    simp only [Send] at hcontra
    repeat' split at hcontra
    all_goals try simp_all
    all_goals
      rename makeAuthHeader _ _ _ _ = Except.error _ => hmk
    all_goals
      rcases makeAuthHeader_error_mem _ _ _ _ _ hmk with hx | hx | hx | hx <;> simp_all
  · intro req hreqmem
    rcases Send_pair_shape env client message s conf with ⟨e', he⟩ | ⟨r, hr⟩
    · rw [he] at hreqmem
      simp at hreqmem
    · rw [hr] at hreqmem
      simp only [List.mem_singleton] at hreqmem
      subst hreqmem
      obtain ⟨_, _, _, _, _, _, _, _, _, h7⟩ :=
        Send_snd_eq env client message s conf req (by rw [hr])
      exact h7 hu

/-- Witness for C10 at a concrete configuration with empty urgency. -/
theorem C10_empty_urgency_witness :
    Urgency.isValid [] = false ∧
    (Send envC (fun r => r) (ascii "hi") subC confC).fst
        ≠ Except.error SendErr.invalidUrgency ∧
    ∀ req ∈ (Send envC (fun r => r) (ascii "hi") subC confC).snd,
      getHeader req (ascii "Urgency") = none :=
  C10_empty_urgency envC (fun r => r) (ascii "hi") subC confC rfl
